import Mathlib

/-!
Verification development for the project-management backend
(`main.py`, `schemas.py`): the data model, the document serializer,
the CRUD handlers, and the chat/search aggregator.

Text is modelled as `List Char`; Python string primitives
(`str.strip`, `str.lower`) are modelled over ASCII, which covers every
string the claims exercise.  The document store (MongoDB via pymongo)
is an external collaborator: its operations (`find`, `find_one`,
`count_documents`, `distinct`, `sort`, `limit`) are modelled on the
list-of-documents state, with `$regex` given by a faithful fragment of
PCRE (literal characters and the `.` wildcard).  The helpers of
`database.py` (`get_documents`, `create_document`) are not part of the
sources and are modelled from the spec where noted.
-/

/-- Text as a character list (Python `str`). -/
abbrev Str := List Char

/-- Character list of a Lean string literal. -/
def chars (s : String) : Str := s.toList

/-- ASCII model of lowercasing a character (Python `str.lower`,
MongoDB option `i`). -/
def pyLowerChar (c : Char) : Char :=
  if 'A' ≤ c ∧ c ≤ 'Z' then Char.ofNat (c.toNat + 32) else c

/-- Lowercase an entire string. -/
def lowerL (l : Str) : Str := l.map pyLowerChar

/-- ASCII whitespace recognised by Python `str.strip`. -/
def pyIsSpace (c : Char) : Bool :=
  c = ' ' || c = '\t' || c = '\n' || c = '\r' || c = '\x0b' || c = '\x0c'

/-- Python `str.strip`: drop leading and trailing whitespace. -/
def pyStrip (l : Str) : Str :=
  ((l.dropWhile pyIsSpace).reverse.dropWhile pyIsSpace).reverse

/-- Chat input normalization: `(payload.message or "").strip().lower()`
(main.py line 186). -/
def normalizeQ (msg : Str) : Str := lowerL (pyStrip msg)

/-- Token of the modelled regex fragment: a literal character or the `.`
wildcard.  The chat handler passes the raw user query to MongoDB
`$regex` (PCRE); the model covers patterns built from literal
characters and `.`. -/
inductive RegexTok
  | lit (c : Char)
  | anyChar
deriving DecidableEq, Repr

/-- Regex metacharacters other than the dot; a pattern containing one of
these is outside the modelled fragment. -/
def nonDotMeta (c : Char) : Bool :=
  c ∈ ['^', '$', '*', '+', '?', '(', ')', '[', ']', '\x7b', '\x7d', '\\', '|']

/-- Parse a pattern of the modelled fragment: `.` becomes the wildcard,
every other character a literal; `none` outside the fragment. -/
def regexTokens? (pat : Str) : Option (List RegexTok) :=
  if pat.any nonDotMeta then none
  else some (pat.map (fun c => if c = '.' then RegexTok.anyChar else RegexTok.lit c))

/-- Does the token list match a prefix of `s`?  Case-insensitive
(`$options: "i"`); the wildcard matches any character except a newline
(PCRE default). -/
def toksMatchHere : List RegexTok → Str → Bool
  | [], _ => true
  | _ :: _, [] => false
  | RegexTok.lit c :: ts, x :: xs => (pyLowerChar c = pyLowerChar x) && toksMatchHere ts xs
  | RegexTok.anyChar :: ts, x :: xs => (x ≠ '\n') && toksMatchHere ts xs

/-- Unanchored regex search: does the token list match anywhere in `s`? -/
def toksSearch (ts : List RegexTok) : Str → Bool
  | [] => toksMatchHere ts []
  | x :: xs => toksMatchHere ts (x :: xs) || toksSearch ts xs

/-- A MongoDB condition of the shape `{"$regex": pat, "$options": "i"}`
applied to a stored string.  Patterns outside the modelled fragment are
treated as unmatchable (no claim exercises them). -/
def regexMatchCI (pat : Str) (s : Str) : Bool :=
  match regexTokens? pat with
  | some ts => toksSearch ts s
  | none => false

/-- A pattern made only of literal characters (no regex metacharacter,
not even the dot). -/
def literalPattern (pat : Str) : Bool :=
  pat.all (fun c => !nonDotMeta c && c ≠ '.')

/-- Project document: the `Project` schema of schemas.py plus the
store-assigned `_id`, carried in its serialized 24-hex string form.
Dates are opaque day numbers. -/
structure Project where
  id : Str
  name : Str
  description : Option Str
  status : Str
  owner : Option Str
  start_date : Option Nat
  end_date : Option Nat
  progress : Int
  priority : Option Str
  tags : List Str
deriving DecidableEq, Repr

/-- Task document: the `Task` schema of schemas.py plus the
store-assigned `_id`. -/
structure TaskDoc where
  id : Str
  project_id : Str
  title : Str
  description : Option Str
  status : Str
  assignee : Option Str
  due_date : Option Nat
  priority : Option Str
deriving DecidableEq, Repr

/-- Note document: the `Note` schema of schemas.py plus the
store-assigned `_id` and `created_at` timestamp (an opaque instant,
totally ordered). -/
structure Note where
  id : Str
  project_id : Str
  author : Option Str
  content : Str
  created_at : Nat
deriving DecidableEq, Repr

/-- The three collections of the document store.  List order is the
store's natural (insertion) order, which `find` preserves. -/
structure DB where
  projects : List Project
  tasks : List TaskDoc
  notes : List Note
deriving DecidableEq, Repr

/-- Hexadecimal digit. -/
def isHexChar (c : Char) : Bool :=
  ('0' ≤ c && c ≤ '9') || ('a' ≤ c && c ≤ 'f') || ('A' ≤ c && c ≤ 'F')

/-- bson `ObjectId.is_valid` on a string: exactly 24 hex characters. -/
def isValidObjectId (s : Str) : Bool := s.length = 24 && s.all isHexChar

/-- Constructing `ObjectId(s)` normalizes the hex string (hex parsing is
case-insensitive; stored ids serialize to lowercase), so `_id` lookups
compare lowercased strings. -/
def oidNorm (s : Str) : Str := lowerL s

/-- pymongo `db["project"].find_one({"_id": ObjectId(pid)})`: first
project whose id equals the normalized query id. -/
def findProjectById (db : DB) (pid : Str) : Option Project :=
  db.projects.find? (fun p => p.id == oidNorm pid)

/-- Project branch of the chat search filter (main.py lines 191-199):
`$or` of case-insensitive regexes over name, description, and tags
(`$elemMatch`).  A missing description matches nothing. -/
def projChatFilter (q : Str) (p : Project) : Bool :=
  regexMatchCI q p.name ||
  (match p.description with
   | some d => regexMatchCI q d
   | none => false) ||
  p.tags.any (regexMatchCI q)

/-- Task branch of the chat search filter (main.py lines 202-205):
`$or` of regexes over title and description. -/
def taskChatFilter (q : Str) (t : TaskDoc) : Bool :=
  regexMatchCI q t.title ||
  (match t.description with
   | some d => regexMatchCI q d
   | none => false)

/-- Note branch of the chat search filter (main.py line 207): regex over
content. -/
def noteChatFilter (q : Str) (n : Note) : Bool := regexMatchCI q n.content

/-- Direct project matches: `db["project"].find({...}).limit(10)`. -/
def projMatches (db : DB) (q : Str) : List Project :=
  (db.projects.filter (projChatFilter q)).take 10

/-- First-occurrence deduplication with an explicit set of already-seen
values (list membership models Python set membership). -/
def keepFirst (seen : List Str) : List Str → List Str
  | [] => []
  | x :: xs => if x ∈ seen then keepFirst seen xs else x :: keepFirst (x :: seen) xs

/-- MongoDB `distinct("project_id", filter)` on tasks: each matching
value reported once. -/
def taskProjIds (db : DB) (q : Str) : List Str :=
  keepFirst [] ((db.tasks.filter (taskChatFilter q)).map TaskDoc.project_id)

/-- MongoDB `distinct("project_id", filter)` on notes. -/
def noteProjIds (db : DB) (q : Str) : List Str :=
  keepFirst [] ((db.notes.filter (noteChatFilter q)).map Note.project_id)

/-- Elements of the Python set
`extra_proj_ids = set(list(task_proj_ids) + list(note_proj_ids))`
(main.py line 209).  A set fixes membership only; its iteration order is
arbitrary (string hashing is randomized per process), so the chat model
takes the order as a parameter constrained to be a permutation of these
elements. -/
def extraProjIdSet (db : DB) (q : Str) : List Str :=
  keepFirst [] (taskProjIds db q ++ noteProjIds db q)

/-- The `for pid in extra_proj_ids` loop (main.py lines 210-217): fetch
the project of each id that is well-formed and exists; malformed or
missing ids are skipped silently. -/
def extraFetched (db : DB) (iterOrder : List Str) : List Project :=
  iterOrder.filterMap (fun pid =>
    if isValidObjectId pid then findProjectById db pid else none)

/-- The deduplication loop (main.py lines 219-226): keep the first
occurrence of each id `str(p["_id"])`. -/
def dedupById (seen : List Str) : List Project → List Project
  | [] => []
  | p :: ps => if p.id ∈ seen then dedupById seen ps else p :: dedupById (p.id :: seen) ps

/-- The merged, deduplicated project list of the chat handler. -/
def uniqueMatches (db : DB) (iterOrder : List Str) (q : Str) : List Project :=
  dedupById [] (projMatches db q ++ extraFetched db iterOrder)

/-- Per-project context, main.py line 232:
`db["task"].find({"project_id": pid, "status": {"$in": ["open", "in-progress"]}}).limit(5)`. -/
def openTasksOf (db : DB) (pid : Str) : List TaskDoc :=
  (db.tasks.filter (fun t =>
    t.project_id == pid && (t.status == chars ("open") || t.status == chars ("in-progress")))).take 5

/-- Insert a note into a list kept in descending `created_at` order. -/
def insertByCreatedDesc (n : Note) : List Note → List Note
  | [] => [n]
  | m :: ms =>
    if m.created_at ≤ n.created_at then n :: m :: ms else m :: insertByCreatedDesc n ms

/-- MongoDB `.sort("created_at", -1)`: descending by creation time. -/
def sortNotesDesc (l : List Note) : List Note := l.foldr insertByCreatedDesc []

/-- Per-project context, main.py line 234:
`db["note"].find({"project_id": pid}).sort("created_at", -1).limit(3)`. -/
def recentNotesOf (db : DB) (pid : Str) : List Note :=
  (sortNotesDesc (db.notes.filter (fun n => n.project_id == pid))).take 3

/-- One entry of `related_projects`: the serialized project with its
attached `open_tasks` and `recent_notes` (main.py lines 229-236). -/
structure RelatedProject where
  project : Project
  open_tasks : List TaskDoc
  recent_notes : List Note
deriving DecidableEq, Repr

/-- Response of POST /api/chat. -/
structure ChatResponse where
  reply : Str
  related_projects : List RelatedProject
deriving DecidableEq, Repr

/-- Attach the per-project context to one matched project. -/
def enrichProject (db : DB) (p : Project) : RelatedProject :=
  ⟨p, openTasksOf db p.id, recentNotesOf db p.id⟩

/-- The final `related` list: cap the merged set at 10, then enrich. -/
def relatedList (db : DB) (iterOrder : List Str) (q : Str) : List RelatedProject :=
  ((uniqueMatches db iterOrder q).take 10).map (enrichProject db)

/-- Apostrophe character, spelled via its code point. -/
def apos : Char := Char.ofNat 39

/-- Reply for an empty query (main.py line 188). -/
def promptReply : Str :=
  chars ("Ask me anything about your projects, tasks, or notes.")

/-- Reply when nothing matches (main.py line 239). -/
def nothingFoundReply : Str :=
  chars ("I couldn") ++ [apos] ++
  chars ("t find anything related. Try different keywords like a project name, tag, or status.")

/-- Python `", ".join`. -/
def joinComma : List Str → Str
  | [] => []
  | [x] => x
  | x :: y :: xs => x ++ chars (", ") ++ joinComma (y :: xs)

/-- The crafted summary reply (main.py lines 242-243).  The
`p.get("name", "Unnamed")` fallback is dead for stored documents, since
the schema requires `name`. -/
def summaryReply (related : List RelatedProject) : Str :=
  chars ("I found ") ++ chars (Nat.repr related.length) ++ chars (" related project(s): ") ++
  joinComma ((related.take 5).map (fun sp => sp.project.name)) ++
  chars (". I included a few open tasks and recent notes for context.")

/-- POST /api/chat, `chat_with_projects` (main.py lines 184-244).
`iterOrder` is the iteration order of the Python set `extra_proj_ids`;
theorems constrain it to be a permutation of `extraProjIdSet`. -/
def chat_with_projects (db : DB) (iterOrder : List Str) (message : Str) : ChatResponse :=
  let q := normalizeQ message
  if q = [] then ⟨promptReply, []⟩
  else
    let related := relatedList db iterOrder q
    if related = [] then ⟨nothingFoundReply, []⟩
    else ⟨summaryReply related, related⟩

/-- Structured HTTP error: FastAPI `HTTPException(status_code, detail)`;
422 is the code FastAPI gives query-parameter validation failures. -/
structure HTTPError where
  status : Nat
  detail : Str
deriving DecidableEq, Repr

/-- The error FastAPI returns when a query parameter violates its
`le=` bound (the spec's ValidationError). -/
def validationError : HTTPError := ⟨422, chars ("limit exceeds maximum")⟩

/-- The call a list endpoint issues to `get_documents` (database.py,
absent from src/): collection name, equality filter, and the limit
passed through unchanged. -/
structure FetchCall where
  coll : Str
  filt : List (Str × Str)
  limit : Int
deriving DecidableEq, Repr

/-- Build the optional equality-filter entry for one query parameter:
Python `{k: v} if v else ...` adds the pair only when the value is
present and non-empty (truthy). -/
def truthyEntry (k : Str) (v : Option Str) : List (Str × Str) :=
  match v with
  | some s => if s = [] then [] else [(k, s)]
  | none => []

/-- GET /api/projects, validation and fetch-call construction
(main.py line 89): `limit: int = Query(100, le=500)` and
`filt = {"status": status} if status else {}`. -/
def list_projects_call (status : Option Str) (limit : Option Int) : Except HTTPError FetchCall :=
  let lim := limit.getD 100
  if 500 < lim then Except.error validationError
  else Except.ok ⟨chars ("project"), truthyEntry (chars ("status")) status, lim⟩

/-- GET /api/tasks, validation and fetch-call construction
(main.py lines 132-137): `limit: int = Query(200, le=1000)`. -/
def list_tasks_call (project_id status : Option Str) (limit : Option Int) : Except HTTPError FetchCall :=
  let lim := limit.getD 200
  if 1000 < lim then Except.error validationError
  else Except.ok ⟨chars ("task"),
    truthyEntry (chars ("project_id")) project_id ++ truthyEntry (chars ("status")) status, lim⟩

/-- GET /api/notes, validation and fetch-call construction
(main.py lines 156-157): `limit: int = Query(200, le=1000)`. -/
def list_notes_call (project_id : Option Str) (limit : Option Int) : Except HTTPError FetchCall :=
  let lim := limit.getD 200
  if 1000 < lim then Except.error validationError
  else Except.ok ⟨chars ("note"), truthyEntry (chars ("project_id")) project_id, lim⟩

/-- Equality-filter field access on a project document. -/
def projField (p : Project) (k : Str) : Option Str :=
  if k == chars ("status") then some p.status else none

/-- Equality-filter field access on a task document. -/
def taskField (t : TaskDoc) (k : Str) : Option Str :=
  if k == chars ("project_id") then some t.project_id
  else if k == chars ("status") then some t.status
  else none

/-- Equality-filter field access on a note document. -/
def noteField (n : Note) (k : Str) : Option Str :=
  if k == chars ("project_id") then some n.project_id else none

/-- Modelled from the spec: `get_documents` (database.py, absent from
src/) returns the documents matching the equality filter, up to `limit`
many ("a result-count limit").  The spec fixes only the upper bound;
nonpositive limits fetch nothing in this model. -/
def get_documents_project (db : DB) (c : FetchCall) : List Project :=
  (db.projects.filter (fun p => c.filt.all (fun kv => projField p kv.1 == some kv.2))).take c.limit.toNat

/-- Modelled from the spec: `get_documents` on the task collection. -/
def get_documents_task (db : DB) (c : FetchCall) : List TaskDoc :=
  (db.tasks.filter (fun t => c.filt.all (fun kv => taskField t kv.1 == some kv.2))).take c.limit.toNat

/-- Modelled from the spec: `get_documents` on the note collection. -/
def get_documents_note (db : DB) (c : FetchCall) : List Note :=
  (db.notes.filter (fun n => c.filt.all (fun kv => noteField n kv.1 == some kv.2))).take c.limit.toNat

/-- Derived task counts of a project (spec: open / in-progress / done
buckets). -/
structure TaskCounts where
  «open» : Nat
  in_progress : Nat
  done : Nat
deriving DecidableEq, Repr

/-- pymongo `db["task"].count_documents({"project_id": pid, "status": st})`. -/
def countTasks (db : DB) (pid st : Str) : Nat :=
  (db.tasks.filter (fun t => t.project_id == pid && t.status == st)).length

/-- pymongo `db["note"].count_documents({"project_id": pid})`. -/
def countNotes (db : DB) (pid : Str) : Nat :=
  (db.notes.filter (fun n => n.project_id == pid)).length

/-- The three per-status count queries attached to project responses
(main.py lines 96-100 and 121-125). -/
def taskCountsFor (db : DB) (pid : Str) : TaskCounts :=
  ⟨countTasks db pid (chars ("open")),
   countTasks db pid (chars ("in-progress")),
   countTasks db pid (chars ("done"))⟩

/-- A serialized project response enriched with the derived counts. -/
structure ProjectOut where
  project : Project
  task_counts : TaskCounts
  notes_count : Nat
deriving DecidableEq, Repr

/-- Enrich one listed project with counts keyed by `pid = str(d["_id"])`. -/
def enrichCounts (db : DB) (d : Project) : ProjectOut :=
  ⟨d, taskCountsFor db d.id, countNotes db d.id⟩

/-- GET /api/projects (`list_projects`, main.py lines 88-102). -/
def list_projects (db : DB) (status : Option Str) (limit : Option Int) : Except HTTPError (List ProjectOut) :=
  (list_projects_call status limit).map (fun c => (get_documents_project db c).map (enrichCounts db))

/-- GET /api/tasks (`list_tasks`, main.py lines 131-139). -/
def list_tasks (db : DB) (project_id status : Option Str) (limit : Option Int) : Except HTTPError (List TaskDoc) :=
  (list_tasks_call project_id status limit).map (get_documents_task db)

/-- GET /api/notes (`list_notes`, main.py lines 155-159). -/
def list_notes (db : DB) (project_id : Option Str) (limit : Option Int) : Except HTTPError (List Note) :=
  (list_notes_call project_id limit).map (get_documents_note db)

/-- GET /api/projects/id (`get_project`, main.py lines 112-127).
The `_id` lookup goes through `ObjectId` normalization while the count
queries reuse the raw `project_id` string from the request. -/
def get_project (db : DB) (project_id : Str) : Except HTTPError ProjectOut :=
  if ¬ isValidObjectId project_id then Except.error ⟨400, chars ("Invalid project id")⟩
  else
    match findProjectById db project_id with
    | none => Except.error ⟨404, chars ("Project not found")⟩
    | some doc => Except.ok ⟨doc, taskCountsFor db project_id, countNotes db project_id⟩

/-- Request body of POST /api/tasks: the `Task` schema (`_id` and the
creation timestamp are store-assigned). -/
structure TaskIn where
  project_id : Str
  title : Str
  description : Option Str
  status : Str
  assignee : Option Str
  due_date : Option Nat
  priority : Option Str
deriving DecidableEq, Repr

/-- Request body of POST /api/notes: the `Note` schema. -/
structure NoteIn where
  project_id : Str
  author : Option Str
  content : Str
deriving DecidableEq, Repr

/-- POST /api/tasks (`create_task`, main.py lines 142-151).  `freshId`
models the store-assigned `_id` of `create_document` (database.py,
absent from src/; modelled from the spec: the store assigns the
identifier and the endpoint returns the freshly-read document).
Returns the resulting store state alongside the HTTP outcome. -/
def create_task (db : DB) (freshId : Str) (tin : TaskIn) : DB × Except HTTPError TaskDoc :=
  if ¬ isValidObjectId tin.project_id then
    (db, Except.error ⟨400, chars ("Invalid project id")⟩)
  else
    match findProjectById db tin.project_id with
    | none => (db, Except.error ⟨404, chars ("Project not found")⟩)
    | some _ =>
      let doc : TaskDoc :=
        ⟨freshId, tin.project_id, tin.title, tin.description, tin.status,
         tin.assignee, tin.due_date, tin.priority⟩
      ({ db with tasks := db.tasks ++ [doc] }, Except.ok doc)

/-- POST /api/notes (`create_note`, main.py lines 162-171).  `now`
models the store-assigned creation timestamp. -/
def create_note (db : DB) (freshId : Str) (now : Nat) (nin : NoteIn) : DB × Except HTTPError Note :=
  if ¬ isValidObjectId nin.project_id then
    (db, Except.error ⟨400, chars ("Invalid project id")⟩)
  else
    match findProjectById db nin.project_id with
    | none => (db, Except.error ⟨404, chars ("Project not found")⟩)
    | some _ =>
      let doc : Note := ⟨freshId, nin.project_id, nin.author, nin.content, now⟩
      ({ db with notes := db.notes ++ [doc] }, Except.ok doc)

/-- Python `datetime` value, identified by its renderings: `isoformat()`
and `str()` (isoformat with a space separator); the stdlib internals
are not re-modelled. -/
structure PyDateTime where
  iso : Str
  strRepr : Str
deriving DecidableEq, Repr

/-- Field value of a stored document as `serialize_doc` sees it.  The
API only ever passes documents whose `_id` is an ObjectId or its string
form; `pyStr` renderings of other shapes are schematic. -/
inductive BVal
  | oid (hex : Str)
  | dt (t : PyDateTime)
  | strV (s : Str)
  | intV (n : Int)
  | boolV (b : Bool)
  | listStr (l : List Str)
  | noneV
deriving DecidableEq, Repr

/-- Python truthiness of a field value. -/
def truthy : BVal → Bool
  | BVal.oid _ => true
  | BVal.dt _ => true
  | BVal.strV s => s ≠ []
  | BVal.intV n => n ≠ 0
  | BVal.boolV b => b
  | BVal.listStr l => l ≠ []
  | BVal.noneV => false

/-- Python `str()` of a field value; `str(ObjectId)` is the 24-hex
lowercase string the id was created from. -/
def pyStr : BVal → Str
  | BVal.oid h => h
  | BVal.dt t => t.strRepr
  | BVal.strV s => s
  | BVal.intV n => chars (toString n)
  | BVal.boolV b => if b then chars ("True") else chars ("False")
  | BVal.listStr l => joinComma l
  | BVal.noneV => chars ("None")

/-- A stored document: field names to values, in insertion order
(Python dict keys are unique). -/
abbrev Doc := List (Str × BVal)

/-- Python `d.get(k)`: first value at the key, if any. -/
def lookupDoc (k : Str) : Doc → Option BVal
  | [] => none
  | kv :: rest => if kv.1 == k then some kv.2 else lookupDoc k rest

/-- The serializer `serialize_doc` (main.py lines 40-50): falsy input is
returned as is; a truthy `_id` is replaced by its string form; then
every datetime value is replaced by its isoformat rendering. -/
def serialize_doc (doc : Doc) : Doc :=
  if doc = [] then doc
  else
    let v := (lookupDoc (chars ("_id")) doc).getD BVal.noneV
    let d :=
      if truthy v then
        doc.map (fun kv : Str × BVal =>
          if kv.1 == chars ("_id") then (kv.1, BVal.strV (pyStr v)) else kv)
      else doc
    d.map (fun kv : Str × BVal =>
      match kv.2 with
      | BVal.dt t => (kv.1, BVal.strV t.iso)
      | _ => kv)

/-- Sample project of the spec's test scenario: "Website Redesign" with
tag "urgent". -/
def wrProj : Project :=
  ⟨chars ("aaaaaaaaaaaaaaaaaaaaaaaa"), chars ("Website Redesign"), none, chars ("active"),
   none, none, none, 0, none, [chars ("urgent")]⟩

/-- Sample store of the spec's test scenario: the project, two tasks
("Fix CSS" open, "Deploy" done) and one note ("urgent fix needed"). -/
def wrDB : DB :=
  ⟨[wrProj],
   [⟨chars ("t1"), wrProj.id, chars ("Fix CSS"), none, chars ("open"), none, none, none⟩,
    ⟨chars ("t2"), wrProj.id, chars ("Deploy"), none, chars ("done"), none, none, none⟩],
   [⟨chars ("n1"), wrProj.id, none, chars ("urgent fix needed"), 5⟩]⟩

/-- Project reached only through a matching task (name avoids the query). -/
def taskOnlyProj : Project :=
  ⟨chars ("aaaaaaaaaaaaaaaaaaaaaaaa"), chars ("One"), none, chars ("planned"),
   none, none, none, 0, none, []⟩

/-- Project reached only through a matching note. -/
def noteOnlyProj : Project :=
  ⟨chars ("bbbbbbbbbbbbbbbbbbbbbbbb"), chars ("Two"), none, chars ("planned"),
   none, none, none, 0, none, []⟩

/-- Store where the query "zzz" matches one task (of `taskOnlyProj`) and
one note (of `noteOnlyProj`) but no project directly. -/
def indirectDB : DB :=
  ⟨[taskOnlyProj, noteOnlyProj],
   [⟨chars ("t1"), taskOnlyProj.id, chars ("zzz task"), none, chars ("open"), none, none, none⟩],
   [⟨chars ("n1"), noteOnlyProj.id, none, chars ("zzz note"), 1⟩]⟩

/-- Project named "abc", matched by the regex query "a.c" although no
field contains "a.c" as a substring. -/
def abcProj : Project :=
  ⟨chars ("cccccccccccccccccccccccc"), chars ("abc"), none, chars ("planned"),
   none, none, none, 0, none, []⟩

/-- Store holding only `abcProj`. -/
def abcDB : DB := ⟨[abcProj], [], []⟩

/-- Project carrying only the tag "special"; no task or note anywhere
refers to it. -/
def tagProj : Project :=
  ⟨chars ("dddddddddddddddddddddddd"), chars ("Alpha"), none, chars ("planned"),
   none, none, none, 0, none, [chars ("special")]⟩

/-- Store where only `tagProj`'s tag matches the query "special". -/
def tagDB : DB := ⟨[tagProj], [], []⟩

def idGet (doc : Doc) : BVal := (lookupDoc (chars ("_id")) doc).getD BVal.noneV

def idStep (doc : Doc) : Doc :=
  if truthy (idGet doc) then
    doc.map (fun kv : Str × BVal =>
      if kv.1 == chars ("_id") then (kv.1, BVal.strV (pyStr (idGet doc))) else kv)
  else doc

def dtStep (kv : Str × BVal) : Str × BVal :=
  match kv.2 with
  | BVal.dt t => (kv.1, BVal.strV t.iso)
  | _ => kv

/-- Spec-side matching relation, following the spec's words: the
(lowercased) query occurs as a contiguous substring of the (lowercased)
stored string. -/
def specContains (q s : Str) : Prop := lowerL q <:+: lowerL s

/-- Spec-side project match: name, description, or some tag contains
the query as a substring, case-insensitively. -/
def specProjMatch (q : Str) (p : Project) : Prop :=
  specContains q p.name ∨
  (∃ d, p.description = some d ∧ specContains q d) ∨
  (∃ t ∈ p.tags, specContains q t)

/-- Spec-side task match: title or description contains the query. -/
def specTaskMatch (q : Str) (t : TaskDoc) : Prop :=
  specContains q t.title ∨ (∃ d, t.description = some d ∧ specContains q d)

/-- Spec-side note match: the content contains the query. -/
def specNoteMatch (q : Str) (n : Note) : Prop := specContains q n.content

/-- Project whose name contains "Project", so the query "proj" matches
it by substring containment. -/
def demoProj : Project :=
  ⟨chars ("eeeeeeeeeeeeeeeeeeeeeeee"), chars ("Website Project"), none, chars ("active"),
   none, none, none, 0, none, []⟩

/-- Descending creation-time order between adjacent notes. -/
def notesDesc (a b : Note) : Prop := b.created_at ≤ a.created_at

/-- C4: a chat message that is empty or whitespace-only after trimming
and lowercasing short-circuits to the prompt reply with an empty
related-projects list; the result is the same constant for every store
state, so no collection is consulted. -/
theorem chat_empty_message_prompt (db : DB) (iterOrder : List Str) (msg : Str)
    (h : normalizeQ msg = []) :
    chat_with_projects db iterOrder msg = ⟨promptReply, []⟩ := by
  simp [chat_with_projects, h]

/-- Witness for C4 at a whitespace-only message and a populated store. -/
theorem chat_empty_message_prompt_witness :
    normalizeQ (chars ("   ")) = [] ∧
    chat_with_projects wrDB [] (chars ("   ")) = ⟨promptReply, []⟩ :=
  ⟨by decide, chat_empty_message_prompt wrDB [] (chars ("   ")) (by decide)⟩

/-- C3: the chat response's related_projects always has at most 10
entries, and when the merged deduplicated set is empty after capping,
the endpoint answers with the nothing-found reply and an empty list. -/
theorem chat_cap_and_nothing_found (db : DB) (iterOrder : List Str) (msg : Str) :
    (chat_with_projects db iterOrder msg).related_projects.length ≤ 10 ∧
    (normalizeQ msg ≠ [] →
      (uniqueMatches db iterOrder (normalizeQ msg)).take 10 = [] →
      chat_with_projects db iterOrder msg = ⟨nothingFoundReply, []⟩) := by
  constructor
  · by_cases h : normalizeQ msg = []
    · simp [chat_with_projects, h]
    · by_cases h2 : relatedList db iterOrder (normalizeQ msg) = []
      · simp [chat_with_projects, h, h2]
      · have hrel : (chat_with_projects db iterOrder msg).related_projects
            = relatedList db iterOrder (normalizeQ msg) := by
          simp [chat_with_projects, h, h2]
        rw [hrel]
        unfold relatedList
        rw [List.length_map, List.length_take]
        exact min_le_left _ _
  · intro h htake
    have h2 : relatedList db iterOrder (normalizeQ msg) = [] := by
      unfold relatedList
      rw [htake]
      rfl
    simp [chat_with_projects, h, h2]

/-- Witness for C3: a query matching nothing yields the nothing-found
reply with an empty list. -/
theorem chat_cap_and_nothing_found_witness :
    normalizeQ (chars ("qqq")) ≠ [] ∧
    (uniqueMatches wrDB [] (normalizeQ (chars ("qqq")))).take 10 = [] ∧
    chat_with_projects wrDB [] (chars ("qqq")) = ⟨nothingFoundReply, []⟩ :=
  ⟨by decide, by decide,
   (chat_cap_and_nothing_found wrDB [] (chars ("qqq"))).2 (by decide) (by decide)⟩

/-- C6: creating a Task or a Note whose project_id is malformed fails
with HTTP 400 (InvalidArgument), and one whose project_id is well-formed
but references no existing Project fails with HTTP 404 (NotFound); in
both failure cases the store is returned unchanged, so nothing was
inserted. -/
theorem create_referential_integrity (db : DB) (freshId : Str) (now : Nat)
    (tin : TaskIn) (nin : NoteIn) :
    (isValidObjectId tin.project_id = false →
      create_task db freshId tin = (db, Except.error ⟨400, chars ("Invalid project id")⟩)) ∧
    (isValidObjectId tin.project_id = true → findProjectById db tin.project_id = none →
      create_task db freshId tin = (db, Except.error ⟨404, chars ("Project not found")⟩)) ∧
    (isValidObjectId nin.project_id = false →
      create_note db freshId now nin = (db, Except.error ⟨400, chars ("Invalid project id")⟩)) ∧
    (isValidObjectId nin.project_id = true → findProjectById db nin.project_id = none →
      create_note db freshId now nin = (db, Except.error ⟨404, chars ("Project not found")⟩)) := by
  refine ⟨fun h => ?_, fun h hf => ?_, fun h => ?_, fun h hf => ?_⟩
  · simp [create_task, h]
  · simp [create_task, h, hf]
  · simp [create_note, h]
  · simp [create_note, h, hf]

/-- Witness for C6: a malformed id is rejected with 400 and a
well-formed unknown id with 404, in both cases leaving the store as it
was. -/
theorem create_referential_integrity_witness :
    create_task wrDB (chars ("e1")) ⟨chars ("nope"), chars ("T"), none, chars ("open"), none, none, none⟩
      = (wrDB, Except.error ⟨400, chars ("Invalid project id")⟩) ∧
    create_note wrDB (chars ("e2")) 7 ⟨chars ("ffffffffffffffffffffffff"), none, chars ("hello")⟩
      = (wrDB, Except.error ⟨404, chars ("Project not found")⟩) :=
  ⟨(create_referential_integrity wrDB (chars ("e1")) 7
      ⟨chars ("nope"), chars ("T"), none, chars ("open"), none, none, none⟩
      ⟨chars ("ffffffffffffffffffffffff"), none, chars ("hello")⟩).1 (by decide),
   (create_referential_integrity wrDB (chars ("e2")) 7
      ⟨chars ("nope"), chars ("T"), none, chars ("open"), none, none, none⟩
      ⟨chars ("ffffffffffffffffffffffff"), none, chars ("hello")⟩).2.2.2 (by decide) (by decide)⟩

/-- C7: get-project-by-id answers 400 on a malformed identifier, 404
when no document matches, and otherwise the serialized document enriched
with the open / in-progress / done task counts and the count of notes
referencing it. -/
theorem get_project_contract (db : DB) (pid : Str) :
    (isValidObjectId pid = false →
      get_project db pid = Except.error ⟨400, chars ("Invalid project id")⟩) ∧
    (isValidObjectId pid = true → findProjectById db pid = none →
      get_project db pid = Except.error ⟨404, chars ("Project not found")⟩) ∧
    (∀ doc, isValidObjectId pid = true → findProjectById db pid = some doc →
      get_project db pid = Except.ok
        ⟨doc,
         ⟨db.tasks.countP (fun t => t.project_id == pid && t.status == chars ("open")),
          db.tasks.countP (fun t => t.project_id == pid && t.status == chars ("in-progress")),
          db.tasks.countP (fun t => t.project_id == pid && t.status == chars ("done"))⟩,
         db.notes.countP (fun n => n.project_id == pid)⟩) := by
  refine ⟨fun h => ?_, fun h hf => ?_, fun doc h hf => ?_⟩
  · simp [get_project, h]
  · simp [get_project, h, hf]
  · simp [get_project, h, hf, taskCountsFor, countTasks, countNotes,
      List.countP_eq_length_filter]

/-- Witness for C7 on the sample store: one open task, no in-progress
task, one done task, one note. -/
theorem get_project_contract_witness :
    get_project wrDB wrProj.id = Except.ok ⟨wrProj, ⟨1, 0, 1⟩, 1⟩ := by
  have h := (get_project_contract wrDB wrProj.id).2.2 wrProj (by decide) (by decide)
  rw [h]
  rfl

/-- C10: the limit of every list endpoint has only an upper bound:
every integer limit at or below the cap, zero and negative values
included, passes validation and reaches the document fetch unchanged. -/
theorem list_limit_only_upper_bound (status project_id : Option Str) (limit : Int) :
    (limit ≤ 500 → list_projects_call status (some limit) =
      Except.ok ⟨chars ("project"), truthyEntry (chars ("status")) status, limit⟩) ∧
    (limit ≤ 1000 → list_tasks_call project_id status (some limit) =
      Except.ok ⟨chars ("task"),
        truthyEntry (chars ("project_id")) project_id ++ truthyEntry (chars ("status")) status,
        limit⟩) ∧
    (limit ≤ 1000 → list_notes_call project_id (some limit) =
      Except.ok ⟨chars ("note"), truthyEntry (chars ("project_id")) project_id, limit⟩) := by
  refine ⟨fun h => ?_, fun h => ?_, fun h => ?_⟩
  · unfold list_projects_call
    rw [if_neg (by simp [Option.getD]; omega)]
    rfl
  · unfold list_tasks_call
    rw [if_neg (by simp [Option.getD]; omega)]
    rfl
  · unfold list_notes_call
    rw [if_neg (by simp [Option.getD]; omega)]
    rfl

/-- Witness for C10 at the negative limit -7: accepted and forwarded
unchanged on all three endpoints. -/
theorem list_limit_only_upper_bound_witness :
    list_projects_call none (some (-7)) =
      Except.ok ⟨chars ("project"), [], -7⟩ ∧
    list_tasks_call none none (some (-7)) =
      Except.ok ⟨chars ("task"), [], -7⟩ ∧
    list_notes_call none (some (-7)) =
      Except.ok ⟨chars ("note"), [], -7⟩ :=
  ⟨(list_limit_only_upper_bound none none (-7)).1 (by decide),
   (list_limit_only_upper_bound none none (-7)).2.1 (by decide),
   (list_limit_only_upper_bound none none (-7)).2.2 (by decide)⟩

theorem list_calls_ok (status project_id : Option Str) (limit : Int) :
    (limit ≤ 500 → list_projects_call status (some limit) =
      Except.ok ⟨chars ("project"), truthyEntry (chars ("status")) status, limit⟩) ∧
    (limit ≤ 1000 → list_tasks_call project_id status (some limit) =
      Except.ok ⟨chars ("task"),
        truthyEntry (chars ("project_id")) project_id ++ truthyEntry (chars ("status")) status,
        limit⟩) ∧
    (limit ≤ 1000 → list_notes_call project_id (some limit) =
      Except.ok ⟨chars ("note"), truthyEntry (chars ("project_id")) project_id, limit⟩) := by
  refine ⟨fun h => ?_, fun h => ?_, fun h => ?_⟩
  · unfold list_projects_call
    rw [if_neg (by simp [Option.getD]; omega)]
    rfl
  · unfold list_tasks_call
    rw [if_neg (by simp [Option.getD]; omega)]
    rfl
  · unfold list_notes_call
    rw [if_neg (by simp [Option.getD]; omega)]
    rfl

/-- C9: list endpoints never return more documents than the requested
limit (projects capped at 500 with default 100, tasks and notes at 1000
with default 200), and a limit above the hard cap is rejected with the
validation error instead of being served. -/
theorem list_endpoint_limits (db : DB) (status project_id : Option Str) (limit : Int)
    (h0 : 0 ≤ limit) :
    (limit ≤ 500 → ∀ res, list_projects db status (some limit) = Except.ok res →
      (res.length : Int) ≤ limit) ∧
    (500 < limit → list_projects db status (some limit) = Except.error validationError) ∧
    (limit ≤ 1000 → ∀ res, list_tasks db project_id status (some limit) = Except.ok res →
      (res.length : Int) ≤ limit) ∧
    (1000 < limit → list_tasks db project_id status (some limit) = Except.error validationError) ∧
    (limit ≤ 1000 → ∀ res, list_notes db project_id (some limit) = Except.ok res →
      (res.length : Int) ≤ limit) ∧
    (1000 < limit → list_notes db project_id (some limit) = Except.error validationError) ∧
    list_projects db status none = list_projects db status (some 100) ∧
    list_tasks db project_id status none = list_tasks db project_id status (some 200) ∧
    list_notes db project_id none = list_notes db project_id (some 200) := by
  have hcast : ((limit.toNat : Int)) = limit := Int.toNat_of_nonneg h0
  refine ⟨fun h res hres => ?_, fun h => ?_, fun h res hres => ?_, fun h => ?_,
    fun h res hres => ?_, fun h => ?_, ?_, ?_, ?_⟩
  · rw [list_projects, (list_calls_ok status project_id limit).1 h] at hres
    simp only [Except.map] at hres
    cases hres
    rw [List.length_map, get_documents_project, List.length_take]
    calc ((min limit.toNat _ : Nat) : Int) ≤ (limit.toNat : Int) := by
          exact_mod_cast min_le_left _ _
      _ = limit := hcast
  · rw [list_projects, list_projects_call, if_pos (by simpa using h)]
    rfl
  · rw [list_tasks, (list_calls_ok status project_id limit).2.1 h] at hres
    simp only [Except.map] at hres
    cases hres
    rw [get_documents_task, List.length_take]
    calc ((min limit.toNat _ : Nat) : Int) ≤ (limit.toNat : Int) := by
          exact_mod_cast min_le_left _ _
      _ = limit := hcast
  · rw [list_tasks, list_tasks_call, if_pos (by simpa using h)]
    rfl
  · rw [list_notes, (list_calls_ok status project_id limit).2.2 h] at hres
    simp only [Except.map] at hres
    cases hres
    rw [get_documents_note, List.length_take]
    calc ((min limit.toNat _ : Nat) : Int) ≤ (limit.toNat : Int) := by
          exact_mod_cast min_le_left _ _
      _ = limit := hcast
  · rw [list_notes, list_notes_call, if_pos (by simpa using h)]
    rfl
  · rfl
  · rfl
  · rfl

/-- Witness for C9: limit 501 is rejected on projects but accepted on
tasks, where the whole two-task store is returned, within the limit. -/
theorem list_endpoint_limits_witness :
    list_projects wrDB none (some 501) = Except.error validationError ∧
    list_tasks wrDB none none (some 501) = Except.ok wrDB.tasks ∧
    ((wrDB.tasks.length : Int) ≤ 501) :=
  ⟨(list_endpoint_limits wrDB none none 501 (by decide)).2.1 (by decide),
   by rfl,
   (list_endpoint_limits wrDB none none 501 (by decide)).2.2.1 (by decide) wrDB.tasks (by rfl)⟩

theorem serialize_doc_eq (doc : Doc) (h : doc ≠ []) :
    serialize_doc doc = (idStep doc).map dtStep := by
  rw [serialize_doc, if_neg h]
  rfl

theorem lookupDoc_eq_of_nodup (doc : Doc) (k : Str) (v : BVal)
    (hkeys : (doc.map Prod.fst).Nodup) (hmem : (k, v) ∈ doc) :
    lookupDoc k doc = some v := by
  induction doc with
  | nil => cases hmem
  | cons kv rest ih =>
    rw [List.map_cons, List.nodup_cons] at hkeys
    rcases List.mem_cons.mp hmem with h | h
    · rw [← h]
      simp [lookupDoc]
    · have hk : kv.1 ≠ k := by
        intro he
        exact hkeys.1 (he ▸ List.mem_map_of_mem Prod.fst h)
      simp [lookupDoc, hk, ih hkeys.2 h]

theorem map_fst_of_preserving (l : Doc) (f : Str × BVal → Str × BVal)
    (hf : ∀ kv, (f kv).1 = kv.1) : (l.map f).map Prod.fst = l.map Prod.fst := by
  rw [List.map_map]
  exact List.map_congr_left (fun kv _ => hf kv)

theorem mem_map_image {α β : Type} (f : α → β) {a : α} {l : List α} (h : a ∈ l) :
    f a ∈ l.map f :=
  List.mem_map.mpr ⟨a, h, rfl⟩

theorem idStep_keeps_other (doc : Doc) (k : Str) (v : BVal)
    (hmem : (k, v) ∈ doc) (hk : k ≠ chars ("_id")) : (k, v) ∈ idStep doc := by
  unfold idStep
  by_cases hw : truthy (idGet doc) = true
  · rw [if_pos hw]
    have h1 := mem_map_image
      (fun kv : Str × BVal =>
        if kv.1 == chars ("_id") then (kv.1, BVal.strV (pyStr (idGet doc))) else kv) hmem
    have h2 : (fun kv : Str × BVal =>
        if kv.1 == chars ("_id") then (kv.1, BVal.strV (pyStr (idGet doc))) else kv) (k, v)
        = (k, v) := by
      simp only
      rw [if_neg (by simp [hk])]
    rwa [h2] at h1
  · rw [if_neg hw]
    exact hmem

theorem dtStep_keeps_nondt (kv : Str × BVal) (h : ∀ t, kv.2 ≠ BVal.dt t) :
    dtStep kv = kv := by
  rcases kv with ⟨k, v⟩
  cases v with
  | dt t => exact absurd rfl (h t)
  | oid s => rfl
  | strV s => rfl
  | intV n => rfl
  | boolV b => rfl
  | listStr l => rfl
  | noneV => rfl

/-- C8: the serializer renders the identifier field as its string form,
renders every timestamp-valued field as its ISO-8601 string, passes
every other field through unchanged preserving the key sequence, and
maps empty input to itself.  Stored documents have unique keys and an
ObjectId-or-string identifier. -/
theorem serialize_doc_contract (doc : Doc)
    (hkeys : (doc.map Prod.fst).Nodup)
    (hid : ∀ v, (chars ("_id"), v) ∈ doc →
      (∃ s, v = BVal.oid s) ∨ (∃ s, v = BVal.strV s)) :
    serialize_doc [] = [] ∧
    (serialize_doc doc).map Prod.fst = doc.map Prod.fst ∧
    (∀ s, (chars ("_id"), BVal.oid s) ∈ doc →
      (chars ("_id"), BVal.strV s) ∈ serialize_doc doc) ∧
    (∀ s, (chars ("_id"), BVal.strV s) ∈ doc →
      (chars ("_id"), BVal.strV s) ∈ serialize_doc doc) ∧
    (∀ k t, (k, BVal.dt t) ∈ doc → (k, BVal.strV t.iso) ∈ serialize_doc doc) ∧
    (∀ k v, (k, v) ∈ doc → k ≠ chars ("_id") → (∀ t, v ≠ BVal.dt t) →
      (k, v) ∈ serialize_doc doc) := by
  by_cases hempty : doc = []
  · subst hempty
    refine ⟨rfl, rfl, ?_, ?_, ?_, ?_⟩ <;> intros <;> simp_all
  · rw [serialize_doc_eq doc hempty]
    refine ⟨rfl, ?_, ?_, ?_, ?_, ?_⟩
    · rw [map_fst_of_preserving _ dtStep (fun kv => by
        rcases kv with ⟨k, v⟩
        cases v <;> rfl)]
      unfold idStep
      by_cases hw : truthy (idGet doc) = true
      · rw [if_pos hw]
        exact map_fst_of_preserving _ _ (fun kv => by
          by_cases hkv : (kv.1 == chars ("_id")) = true <;> simp [hkv])
      · rw [if_neg hw]
    · intro s hmem
      have hget : idGet doc = BVal.oid s := by
        rw [idGet, lookupDoc_eq_of_nodup doc _ _ hkeys hmem]
        rfl
      have hstep : (chars ("_id"), BVal.strV s) ∈ idStep doc := by
        unfold idStep
        rw [hget, if_pos (by rfl)]
        have h1 := mem_map_image
          (fun kv : Str × BVal =>
            if kv.1 == chars ("_id") then (kv.1, BVal.strV (pyStr (BVal.oid s))) else kv) hmem
        have h2 : (fun kv : Str × BVal =>
            if kv.1 == chars ("_id") then (kv.1, BVal.strV (pyStr (BVal.oid s))) else kv)
            (chars ("_id"), BVal.oid s) = (chars ("_id"), BVal.strV s) := by
          simp [pyStr]
        rwa [h2] at h1
      have h3 := mem_map_image dtStep hstep
      have h4 : dtStep (chars ("_id"), BVal.strV s) = (chars ("_id"), BVal.strV s) := rfl
      rwa [h4] at h3
    · intro s hmem
      have hget : idGet doc = BVal.strV s := by
        rw [idGet, lookupDoc_eq_of_nodup doc _ _ hkeys hmem]
        rfl
      have hstep : (chars ("_id"), BVal.strV s) ∈ idStep doc := by
        unfold idStep
        rw [hget]
        by_cases hs : truthy (BVal.strV s) = true
        · rw [if_pos hs]
          have h1 := mem_map_image
            (fun kv : Str × BVal =>
              if kv.1 == chars ("_id") then (kv.1, BVal.strV (pyStr (BVal.strV s))) else kv) hmem
          have h2 : (fun kv : Str × BVal =>
              if kv.1 == chars ("_id") then (kv.1, BVal.strV (pyStr (BVal.strV s))) else kv)
              (chars ("_id"), BVal.strV s) = (chars ("_id"), BVal.strV s) := by
            simp [pyStr]
          rwa [h2] at h1
        · rw [if_neg hs]
          exact hmem
      have h3 := mem_map_image dtStep hstep
      have h4 : dtStep (chars ("_id"), BVal.strV s) = (chars ("_id"), BVal.strV s) := rfl
      rwa [h4] at h3
    · intro k t hmem
      have hk : k ≠ chars ("_id") := by
        intro he
        rcases hid (BVal.dt t) (he ▸ hmem) with ⟨s, hs⟩ | ⟨s, hs⟩ <;> cases hs
      have hstep := idStep_keeps_other doc k (BVal.dt t) hmem hk
      have h3 := mem_map_image dtStep hstep
      have h4 : dtStep (k, BVal.dt t) = (k, BVal.strV t.iso) := rfl
      rwa [h4] at h3
    · intro k v hmem hk hv
      have hstep := idStep_keeps_other doc k v hmem hk
      have h3 := mem_map_image dtStep hstep
      rwa [dtStep_keeps_nondt (k, v) hv] at h3

/-- Witness for C8 on a concrete stored document: the ObjectId is
rendered as its hex string, the timestamp as ISO text, the name passes
through unchanged. -/
theorem serialize_doc_contract_witness :
    serialize_doc
      [(chars ("_id"), BVal.oid (chars ("aaaaaaaaaaaaaaaaaaaaaaaa"))),
       (chars ("name"), BVal.strV (chars ("Website Redesign"))),
       (chars ("created_at"),
        BVal.dt ⟨chars ("2024-01-02T03:04:05"), chars ("2024-01-02 03:04:05")⟩)]
    = [(chars ("_id"), BVal.strV (chars ("aaaaaaaaaaaaaaaaaaaaaaaa"))),
       (chars ("name"), BVal.strV (chars ("Website Redesign"))),
       (chars ("created_at"), BVal.strV (chars ("2024-01-02T03:04:05")))] ∧
    (chars ("_id"), BVal.strV (chars ("aaaaaaaaaaaaaaaaaaaaaaaa"))) ∈
      serialize_doc
        [(chars ("_id"), BVal.oid (chars ("aaaaaaaaaaaaaaaaaaaaaaaa"))),
         (chars ("name"), BVal.strV (chars ("Website Redesign"))),
         (chars ("created_at"),
          BVal.dt ⟨chars ("2024-01-02T03:04:05"), chars ("2024-01-02 03:04:05")⟩)] :=
  ⟨by rfl,
   (serialize_doc_contract
      [(chars ("_id"), BVal.oid (chars ("aaaaaaaaaaaaaaaaaaaaaaaa"))),
       (chars ("name"), BVal.strV (chars ("Website Redesign"))),
       (chars ("created_at"),
        BVal.dt ⟨chars ("2024-01-02T03:04:05"), chars ("2024-01-02 03:04:05")⟩)]
      (by decide)
      (by
        intro v hv
        simp only [List.mem_cons, List.not_mem_nil, or_false] at hv
        rcases hv with h | h | h
        · injection h with h1 h2
          exact Or.inl ⟨chars ("aaaaaaaaaaaaaaaaaaaaaaaa"), h2⟩
        · injection h with h1 h2
          exact absurd h1 (by decide)
        · injection h with h1 h2
          exact absurd h1 (by decide))).2.2.1
     (chars ("aaaaaaaaaaaaaaaaaaaaaaaa")) (by decide)⟩

theorem lowerL_nil : lowerL [] = [] := rfl

theorem lowerL_cons (x : Char) (xs : Str) :
    lowerL (x :: xs) = pyLowerChar x :: lowerL xs := rfl

theorem regexTokens_literal (pat : Str) (h : literalPattern pat = true) :
    regexTokens? pat = some (pat.map RegexTok.lit) := by
  have h' := List.all_eq_true.mp h
  unfold regexTokens?
  rw [if_neg]
  · congr 1
    apply List.map_congr_left
    intro c hc
    have hcp := h' c hc
    rw [Bool.and_eq_true] at hcp
    rw [if_neg]
    intro he
    rw [he] at hcp
    simp at hcp
  · rw [List.any_eq_true]
    rintro ⟨c, hc, hmeta⟩
    have hcp := h' c hc
    rw [Bool.and_eq_true, hmeta] at hcp
    simp at hcp

theorem toksMatchHere_lit_iff (pat : Str) :
    ∀ s : Str, toksMatchHere (pat.map RegexTok.lit) s = true ↔ lowerL pat <+: lowerL s := by
  induction pat with
  | nil =>
    intro s
    constructor
    · intro _
      exact ⟨lowerL s, rfl⟩
    · intro _
      rfl
  | cons c cs ih =>
    intro s
    cases s with
    | nil =>
      constructor
      · intro h
        cases h
      · rintro ⟨t, ht⟩
        rw [lowerL_cons] at ht
        cases ht
    | cons x xs =>
      rw [List.map_cons]
      have heq : toksMatchHere (RegexTok.lit c :: cs.map RegexTok.lit) (x :: xs)
          = (decide (pyLowerChar c = pyLowerChar x) && toksMatchHere (cs.map RegexTok.lit) xs) :=
        rfl
      rw [heq, Bool.and_eq_true, decide_eq_true_iff, lowerL_cons, lowerL_cons,
        List.cons_prefix_cons]
      exact and_congr Iff.rfl (ih xs)

theorem toksSearch_lit_iff (pat : Str) :
    ∀ s : Str, toksSearch (pat.map RegexTok.lit) s = true ↔ lowerL pat <:+: lowerL s := by
  intro s
  induction s with
  | nil =>
    have heq : toksSearch (pat.map RegexTok.lit) [] = toksMatchHere (pat.map RegexTok.lit) [] :=
      rfl
    rw [heq, toksMatchHere_lit_iff pat, lowerL_nil, List.prefix_nil, List.infix_nil]
  | cons x xs ih =>
    have heq : toksSearch (pat.map RegexTok.lit) (x :: xs)
        = (toksMatchHere (pat.map RegexTok.lit) (x :: xs) || toksSearch (pat.map RegexTok.lit) xs) :=
      rfl
    rw [heq, Bool.or_eq_true, toksMatchHere_lit_iff pat, ih, lowerL_cons,
      List.infix_cons_iff]

theorem regexMatchCI_literal (q s : Str) (h : literalPattern q = true) :
    regexMatchCI q s = true ↔ specContains q s := by
  unfold regexMatchCI
  rw [regexTokens_literal q h]
  exact toksSearch_lit_iff q s

/-- C2 (amended): for queries containing no regex metacharacter the chat
filters are exactly case-insensitive substring containment on the
claimed fields; in general the code hands the raw query to `$regex`, so
metacharacters keep their regex meaning. -/
theorem chat_matching_literal_substring (q : Str) (hq : literalPattern q = true) :
    (∀ p : Project, projChatFilter q p = true ↔ specProjMatch q p) ∧
    (∀ t : TaskDoc, taskChatFilter q t = true ↔ specTaskMatch q t) ∧
    (∀ n : Note, noteChatFilter q n = true ↔ specNoteMatch q n) := by
  refine ⟨fun p => ?_, fun t => ?_, fun n => ?_⟩
  · unfold projChatFilter specProjMatch
    rw [Bool.or_eq_true, Bool.or_eq_true]
    constructor
    · rintro ((h | h) | h)
      · exact Or.inl ((regexMatchCI_literal q p.name hq).mp h)
      · refine Or.inr (Or.inl ?_)
        cases hd : p.description with
        | none => rw [hd] at h; cases h
        | some d =>
          rw [hd] at h
          exact ⟨d, rfl, (regexMatchCI_literal q d hq).mp h⟩
      · refine Or.inr (Or.inr ?_)
        rw [List.any_eq_true] at h
        rcases h with ⟨tg, htg, hm⟩
        exact ⟨tg, htg, (regexMatchCI_literal q tg hq).mp hm⟩
    · rintro (h | ⟨d, hd, h⟩ | ⟨tg, htg, h⟩)
      · exact Or.inl (Or.inl ((regexMatchCI_literal q p.name hq).mpr h))
      · refine Or.inl (Or.inr ?_)
        rw [hd]
        exact (regexMatchCI_literal q d hq).mpr h
      · refine Or.inr ?_
        rw [List.any_eq_true]
        exact ⟨tg, htg, (regexMatchCI_literal q tg hq).mpr h⟩
  · unfold taskChatFilter specTaskMatch
    rw [Bool.or_eq_true]
    constructor
    · rintro (h | h)
      · exact Or.inl ((regexMatchCI_literal q t.title hq).mp h)
      · refine Or.inr ?_
        cases hd : t.description with
        | none => rw [hd] at h; cases h
        | some d =>
          rw [hd] at h
          exact ⟨d, rfl, (regexMatchCI_literal q d hq).mp h⟩
    · rintro (h | ⟨d, hd, h⟩)
      · exact Or.inl ((regexMatchCI_literal q t.title hq).mpr h)
      · refine Or.inr ?_
        rw [hd]
        exact (regexMatchCI_literal q d hq).mpr h
  · exact regexMatchCI_literal q n.content hq

/-- Witness for C2: "proj" is metacharacter-free and matches the
project named "Website Project" by substring containment. -/
theorem chat_matching_literal_substring_witness :
    literalPattern (chars ("proj")) = true ∧
    (projChatFilter (chars ("proj")) demoProj = true ↔ specProjMatch (chars ("proj")) demoProj) ∧
    projChatFilter (chars ("proj")) demoProj = true :=
  ⟨by decide,
   (chat_matching_literal_substring (chars ("proj")) (by decide)).1 demoProj,
   by decide⟩

/-- C2 counterexample: the message "a.c" is returned unchanged by
normalization and matches the project named "abc" through the chat
endpoint, although neither the name nor any other field contains "a.c"
as a substring: the unescaped query is interpreted as a regex, where
the dot matches any character. -/
theorem chat_matching_regex_counterexample :
    normalizeQ (chars ("a.c")) = chars ("a.c") ∧
    (¬ specContains (chars ("a.c")) abcProj.name) ∧
    abcProj.description = none ∧
    abcProj.tags = [] ∧
    extraProjIdSet abcDB (chars ("a.c")) = [] ∧
    projChatFilter (chars ("a.c")) abcProj = true ∧
    (chat_with_projects abcDB [] (chars ("a.c"))).related_projects.map
      (fun sp => sp.project.id) = [abcProj.id] := by
  refine ⟨by decide, by unfold specContains; decide, rfl, rfl, by decide, by decide, by decide⟩

theorem insertByCreatedDesc_head (n : Note) (l : List Note) :
    (insertByCreatedDesc n l).head? = some n ∨ (insertByCreatedDesc n l).head? = l.head? := by
  cases l with
  | nil => exact Or.inl rfl
  | cons m ms =>
    unfold insertByCreatedDesc
    by_cases hc : m.created_at ≤ n.created_at
    · rw [if_pos hc]
      exact Or.inl rfl
    · rw [if_neg hc]
      exact Or.inr rfl

theorem chain'_insertByCreatedDesc (n : Note) :
    ∀ l : List Note, List.Chain' notesDesc l →
      List.Chain' notesDesc (insertByCreatedDesc n l) := by
  intro l
  induction l with
  | nil =>
    intro _
    simp [insertByCreatedDesc]
  | cons m ms ih =>
    intro h
    unfold insertByCreatedDesc
    by_cases hc : m.created_at ≤ n.created_at
    · rw [if_pos hc]
      exact List.chain'_cons.mpr ⟨hc, h⟩
    · rw [if_neg hc]
      rw [List.chain'_cons'] at h ⊢
      refine ⟨?_, ih h.2⟩
      intro y hy
      rcases insertByCreatedDesc_head n ms with he | he
      · rw [he] at hy
        have hyn : y = n := by
          cases hy
          rfl
        rw [hyn]
        exact le_of_not_le hc
      · rw [he] at hy
        exact h.1 y hy

theorem insertByCreatedDesc_perm (n : Note) :
    ∀ l : List Note, List.Perm (insertByCreatedDesc n l) (n :: l) := by
  intro l
  induction l with
  | nil => exact List.Perm.refl _
  | cons m ms ih =>
    unfold insertByCreatedDesc
    by_cases hc : m.created_at ≤ n.created_at
    · rw [if_pos hc]
    · rw [if_neg hc]
      exact (ih.cons m).trans (List.Perm.swap n m ms)

theorem sortNotesDesc_chain' (l : List Note) :
    List.Chain' notesDesc (sortNotesDesc l) := by
  induction l with
  | nil => simp [sortNotesDesc]
  | cons n ns ih =>
    have h1 : sortNotesDesc (n :: ns) = insertByCreatedDesc n (sortNotesDesc ns) := rfl
    rw [h1]
    exact chain'_insertByCreatedDesc n _ ih

theorem sortNotesDesc_perm (l : List Note) : List.Perm (sortNotesDesc l) l := by
  induction l with
  | nil => exact List.Perm.refl _
  | cons n ns ih =>
    have h1 : sortNotesDesc (n :: ns) = insertByCreatedDesc n (sortNotesDesc ns) := rfl
    rw [h1]
    exact (insertByCreatedDesc_perm n _).trans (ih.cons n)

theorem dedupById_append_prefix :
    ∀ (l r : List Project) (seen : List Str),
      (∀ p ∈ l, p.id ∉ seen) → (l.map Project.id).Nodup →
      ∃ r', dedupById seen (l ++ r) = l ++ r' := by
  intro l
  induction l with
  | nil => exact fun r seen _ _ => ⟨dedupById seen r, rfl⟩
  | cons p ps ih =>
    intro r seen hseen hnodup
    rw [List.map_cons, List.nodup_cons] at hnodup
    rw [List.cons_append]
    unfold dedupById
    rw [if_neg (hseen p (List.mem_cons_self p ps))]
    have hps : ∀ q ∈ ps, q.id ∉ p.id :: seen := by
      intro q hq hmem
      rcases List.mem_cons.mp hmem with he | he
      · exact hnodup.1 (he ▸ List.mem_map_of_mem Project.id hq)
      · exact hseen q (List.mem_cons_of_mem p hq) he
    rcases ih r (p.id :: seen) hps hnodup.2 with ⟨r', hr'⟩
    exact ⟨r', by rw [hr', List.cons_append]⟩

theorem chat_related_cases (db : DB) (iterOrder : List Str) (msg : Str) :
    (chat_with_projects db iterOrder msg).related_projects = [] ∨
    (chat_with_projects db iterOrder msg).related_projects
      = relatedList db iterOrder (normalizeQ msg) := by
  by_cases hq : normalizeQ msg = []
  · exact Or.inl (by simp [chat_with_projects, hq])
  · by_cases hrel : relatedList db iterOrder (normalizeQ msg) = []
    · exact Or.inl (by simp [chat_with_projects, hq, hrel])
    · exact Or.inr (by simp [chat_with_projects, hq, hrel])

/-- C5: every related_projects entry carries at most 5 tasks, all of
them tasks of that project with status open or in-progress, and at most
3 of that project's notes in descending creation order; and every
direct project match within the cap (a tag-only match included) is
returned, its open_tasks being exactly the endpoint's open-task fetch,
empty when the project has no such task. -/
theorem chat_enrichment_bounds (db : DB) (iterOrder : List Str) (msg : Str)
    (hids : (db.projects.map Project.id).Nodup) :
    (∀ sp ∈ (chat_with_projects db iterOrder msg).related_projects,
      sp.open_tasks.length ≤ 5 ∧
      (∀ t ∈ sp.open_tasks, t ∈ db.tasks ∧ t.project_id = sp.project.id ∧
        (t.status = chars ("open") ∨ t.status = chars ("in-progress"))) ∧
      sp.recent_notes.length ≤ 3 ∧
      (∀ n ∈ sp.recent_notes, n ∈ db.notes ∧ n.project_id = sp.project.id) ∧
      List.Chain' notesDesc sp.recent_notes) ∧
    (normalizeQ msg ≠ [] →
      ∀ p ∈ projMatches db (normalizeQ msg),
        ∃ sp ∈ (chat_with_projects db iterOrder msg).related_projects,
          sp.project = p ∧ sp.open_tasks = openTasksOf db p.id) := by
  constructor
  · intro sp hsp
    have hsp' : sp ∈ relatedList db iterOrder (normalizeQ msg) := by
      rcases chat_related_cases db iterOrder msg with h | h
      · rw [h] at hsp
        cases hsp
      · rwa [h] at hsp
    rcases List.mem_map.mp hsp' with ⟨p, _, hpe⟩
    subst hpe
    refine ⟨?_, ?_, ?_, ?_, ?_⟩
    · show (openTasksOf db p.id).length ≤ 5
      rw [openTasksOf, List.length_take]
      exact min_le_left _ _
    · intro t ht
      have ht1 : t ∈ (db.tasks.filter (fun t =>
          t.project_id == p.id &&
            (t.status == chars ("open") || t.status == chars ("in-progress")))).take 5 := ht
      have ht2 := List.take_subset _ _ ht1
      rcases List.mem_filter.mp ht2 with ⟨htm, hcond⟩
      rw [Bool.and_eq_true, Bool.or_eq_true] at hcond
      refine ⟨htm, eq_of_beq hcond.1, ?_⟩
      rcases hcond.2 with h | h
      · exact Or.inl (eq_of_beq h)
      · exact Or.inr (eq_of_beq h)
    · show (recentNotesOf db p.id).length ≤ 3
      rw [recentNotesOf, List.length_take]
      exact min_le_left _ _
    · intro n hn
      have hn1 : n ∈ (sortNotesDesc (db.notes.filter (fun n => n.project_id == p.id))).take 3 := hn
      have hn2 := List.take_subset _ _ hn1
      have hn3 : n ∈ db.notes.filter (fun n => n.project_id == p.id) :=
        (sortNotesDesc_perm _).mem_iff.mp hn2
      rcases List.mem_filter.mp hn3 with ⟨hnm, hcond⟩
      exact ⟨hnm, eq_of_beq hcond⟩
    · show List.Chain' notesDesc
        ((sortNotesDesc (db.notes.filter (fun n => n.project_id == p.id))).take 3)
      exact (sortNotesDesc_chain' _).take 3
  · intro hq p hp
    have hA : ((projMatches db (normalizeQ msg)).map Project.id).Nodup := by
      have hsub : List.Sublist (projMatches db (normalizeQ msg)) db.projects :=
        (List.take_sublist _ _).trans (List.filter_sublist _)
      exact hids.sublist (hsub.map Project.id)
    have hlen : (projMatches db (normalizeQ msg)).length ≤ 10 := by
      rw [projMatches, List.length_take]
      exact min_le_left _ _
    rcases dedupById_append_prefix (projMatches db (normalizeQ msg))
        (extraFetched db iterOrder) [] (fun _ _ => List.not_mem_nil _) hA with ⟨r', hr'⟩
    have h10 : p ∈ (uniqueMatches db iterOrder (normalizeQ msg)).take 10 := by
      rw [uniqueMatches, hr', List.take_append_eq_append_take, List.take_of_length_le hlen]
      exact List.mem_append_left _ hp
    have hsp : enrichProject db p ∈ relatedList db iterOrder (normalizeQ msg) :=
      mem_map_image (enrichProject db) h10
    have hne : relatedList db iterOrder (normalizeQ msg) ≠ [] := by
      intro h0
      rw [h0] at hsp
      cases hsp
    have hchat : (chat_with_projects db iterOrder msg).related_projects
        = relatedList db iterOrder (normalizeQ msg) := by
      simp [chat_with_projects, hq, hne]
    exact ⟨enrichProject db p, hchat ▸ hsp, rfl, rfl⟩

/-- Witness for C5: a query matching only a project's tag still returns
that project, with an empty open_tasks list since it has no tasks. -/
theorem chat_enrichment_bounds_witness :
    (tagDB.projects.map Project.id).Nodup ∧
    normalizeQ (chars ("special")) ≠ [] ∧
    tagProj ∈ projMatches tagDB (normalizeQ (chars ("special"))) ∧
    (∃ sp ∈ (chat_with_projects tagDB [] (chars ("special"))).related_projects,
      sp.project = tagProj ∧ sp.open_tasks = openTasksOf tagDB tagProj.id) ∧
    openTasksOf tagDB tagProj.id = [] :=
  ⟨by decide, by decide, by decide,
   (chat_enrichment_bounds tagDB [] (chars ("special")) (by decide)).2
     (by decide) tagProj (by decide),
   by decide⟩

theorem dedupById_map_id :
    ∀ (seen : List Str) (l : List Project),
      (dedupById seen l).map Project.id = keepFirst seen (l.map Project.id) := by
  intro seen l
  induction l generalizing seen with
  | nil => rfl
  | cons p ps ih =>
    rw [List.map_cons]
    unfold dedupById keepFirst
    by_cases hc : p.id ∈ seen
    · rw [if_pos hc, if_pos hc]
      exact ih seen
    · rw [if_neg hc, if_neg hc, List.map_cons, ih (p.id :: seen)]

theorem dedup_append_singleton (x : Str) :
    ∀ l : List Str, (l ++ [x]).dedup = (l.filter (fun y => y != x)).dedup ++ [x] := by
  intro l
  induction l with
  | nil => simp
  | cons a l ih =>
    rw [List.cons_append]
    by_cases hax : a = x
    · have hmem : a ∈ l ++ [x] := by
        rw [hax]
        exact List.mem_append_right l (List.mem_singleton.mpr rfl)
      rw [List.dedup_cons_of_mem hmem, ih, List.filter_cons_of_neg (by simp [hax])]
    · by_cases hal : a ∈ l
      · have hmem : a ∈ l ++ [x] := List.mem_append_left _ hal
        rw [List.dedup_cons_of_mem hmem, ih, List.filter_cons_of_pos (by simp [hax]),
          List.dedup_cons_of_mem (List.mem_filter.mpr ⟨hal, by simp [hax]⟩)]
      · have hmem : a ∉ l ++ [x] := by
          rw [List.mem_append]
          rintro (h | h)
          · exact hal h
          · exact hax (List.mem_singleton.mp h)
        have hfil : a ∉ l.filter (fun y => y != x) := by
          intro h
          exact hal (List.mem_filter.mp h).1
        rw [List.dedup_cons_of_not_mem hmem, ih, List.filter_cons_of_pos (by simp [hax]),
          List.dedup_cons_of_not_mem hfil, List.cons_append]

theorem keepFirst_eq_reverse_dedup :
    ∀ (l : List Str) (seen : List Str),
      keepFirst seen l = ((l.filter (fun y => decide (y ∉ seen))).reverse.dedup).reverse := by
  intro l
  induction l with
  | nil => intro seen; rfl
  | cons x xs ih =>
    intro seen
    unfold keepFirst
    by_cases hx : x ∈ seen
    · rw [if_pos hx, List.filter_cons_of_neg (by simp [hx]), ih seen]
    · rw [if_neg hx, List.filter_cons_of_pos (by simp [hx]), ih (x :: seen)]
      rw [List.reverse_cons, dedup_append_singleton x ((xs.filter (fun y => decide (y ∉ seen))).reverse),
        List.reverse_append, List.reverse_singleton, List.singleton_append]
      rw [List.filter_reverse, List.filter_filter]
      have hpred : ∀ a ∈ xs,
          ((fun y => y != x) a && (fun y => decide (y ∉ seen)) a)
            = (fun y => decide (y ∉ x :: seen)) a := by
        intro a _
        by_cases h1 : a = x <;> by_cases h2 : a ∈ seen <;>
          simp [h1, h2, List.mem_cons]
      rw [List.filter_congr hpred]

theorem relatedIds_eq (db : DB) (iterOrder : List Str) (q : Str) :
    (relatedList db iterOrder q).map (fun sp => sp.project.id)
      = ((((projMatches db q ++ extraFetched db iterOrder).map
            Project.id).reverse.dedup).reverse).take 10 := by
  rw [relatedList, List.map_map]
  have hcomp : ((fun sp : RelatedProject => sp.project.id) ∘ enrichProject db) = Project.id :=
    rfl
  rw [hcomp, List.map_take, uniqueMatches, dedupById_map_id, keepFirst_eq_reverse_dedup]
  have hfil : ((projMatches db q ++ extraFetched db iterOrder).map Project.id).filter
      (fun y => decide (y ∉ ([] : List Str)))
      = (projMatches db q ++ extraFetched db iterOrder).map Project.id :=
    List.filter_eq_self.mpr (fun a _ => by simp)
  rw [hfil]

/-- C1 (amended): related_projects lists, in order, the direct
projects-collection matches followed by the task/note-derived fetches in
the iteration order of the id set, deduplicated by identifier keeping
only the first occurrence (so a project matched both directly and
indirectly appears exactly once) and capped at 10.  The set's iteration
order is arbitrary, so no relative order between task-derived and
note-derived entries is guaranteed. -/
theorem chat_merge_order_amended (db : DB) (iterOrder : List Str) (msg : Str)
    (hq : normalizeQ msg ≠ [])
    (_hperm : List.Perm iterOrder (extraProjIdSet db (normalizeQ msg))) :
    ((chat_with_projects db iterOrder msg).related_projects.map
      (fun sp => sp.project.id)).Nodup ∧
    (chat_with_projects db iterOrder msg).related_projects.map (fun sp => sp.project.id)
      = ((((projMatches db (normalizeQ msg) ++ extraFetched db iterOrder).map
            Project.id).reverse.dedup).reverse).take 10 := by
  have hchat : (chat_with_projects db iterOrder msg).related_projects
      = relatedList db iterOrder (normalizeQ msg) := by
    by_cases hrel : relatedList db iterOrder (normalizeQ msg) = []
    · rw [hrel]
      simp [chat_with_projects, hq, hrel]
    · simp [chat_with_projects, hq, hrel]
  rw [hchat, relatedIds_eq db iterOrder (normalizeQ msg)]
  refine ⟨?_, rfl⟩
  exact (List.nodup_reverse.mpr (List.nodup_dedup _)).sublist (List.take_sublist 10 _)

/-- Witness for C1 (amended) on a store where the query reaches one
project through a task and another through a note. -/
theorem chat_merge_order_amended_witness :
    normalizeQ (chars ("zzz")) ≠ [] ∧
    List.Perm [taskOnlyProj.id, noteOnlyProj.id]
      (extraProjIdSet indirectDB (normalizeQ (chars ("zzz")))) ∧
    ((chat_with_projects indirectDB [taskOnlyProj.id, noteOnlyProj.id]
        (chars ("zzz"))).related_projects.map (fun sp => sp.project.id)).Nodup ∧
    (chat_with_projects indirectDB [taskOnlyProj.id, noteOnlyProj.id]
        (chars ("zzz"))).related_projects.map (fun sp => sp.project.id)
      = ((((projMatches indirectDB (normalizeQ (chars ("zzz")))
            ++ extraFetched indirectDB [taskOnlyProj.id, noteOnlyProj.id]).map
            Project.id).reverse.dedup).reverse).take 10 :=
  ⟨by decide, by decide,
   (chat_merge_order_amended indirectDB [taskOnlyProj.id, noteOnlyProj.id]
      (chars ("zzz")) (by decide) (by decide)).1,
   (chat_merge_order_amended indirectDB [taskOnlyProj.id, noteOnlyProj.id]
      (chars ("zzz")) (by decide) (by decide)).2⟩

/-- C1 counterexample: under a legal iteration order of the Python set
`extra_proj_ids` (a permutation of its elements), the note-derived
project precedes the task-derived one in related_projects, refuting the
claimed fixed "task-derived then note-derived" order. -/
theorem chat_merge_order_counterexample :
    List.Perm [noteOnlyProj.id, taskOnlyProj.id]
      (extraProjIdSet indirectDB (normalizeQ (chars ("zzz")))) ∧
    taskOnlyProj.id ∈ taskProjIds indirectDB (normalizeQ (chars ("zzz"))) ∧
    taskOnlyProj.id ∉ noteProjIds indirectDB (normalizeQ (chars ("zzz"))) ∧
    noteOnlyProj.id ∈ noteProjIds indirectDB (normalizeQ (chars ("zzz"))) ∧
    noteOnlyProj.id ∉ taskProjIds indirectDB (normalizeQ (chars ("zzz"))) ∧
    projMatches indirectDB (normalizeQ (chars ("zzz"))) = [] ∧
    (chat_with_projects indirectDB [noteOnlyProj.id, taskOnlyProj.id]
        (chars ("zzz"))).related_projects.map (fun sp => sp.project.id)
      = [noteOnlyProj.id, taskOnlyProj.id] := by
  exact ⟨by decide, by decide, by decide, by decide, by decide, by decide, by decide⟩
